import Mathlib

/-!
Verification of the vector rendering and replay pipeline of the openlayers
repository, as a shallow embedding in Lean 4.

Embedding conventions:
- JavaScript numbers are `ℚ` (`Rat`); revision counters are `ℕ`;
  tile z levels and zIndex values are `ℤ`.
- JavaScript `undefined` is `Option.none`; other values are the small
  inductive `JsVal`, with JavaScript truthiness made explicit.
- JavaScript arrays that are mutated through shared references are
  modelled by a heap (`Heap`) of buffers addressed by index; `.slice()`
  allocates a fresh buffer.
- Loops become folds or structural recursion; drawing commands issued to
  the canvas context become an explicit event trace.
-/

namespace OL

/-- Tile load states, after ol/TileState.js (numeric enum in the source). -/
inductive TileState where
  | idle
  | loading
  | loaded
  | error
  | empty
  | abort
deriving DecidableEq, Repr

/-- A tagged JavaScript value as returned by user callbacks, with explicit
truthiness.  `undefined` is represented by `Option.none` at use sites. -/
inductive JsVal where
  | vNull
  | vBool (b : Bool)
  | vNum (n : ℤ)
  | vFeat (uid : ℕ)
deriving DecidableEq, Repr

/-- JavaScript truthiness of a `JsVal`. -/
def JsVal.truthy : JsVal → Bool
  | .vNull => false
  | .vBool b => b
  | .vNum n => n ≠ 0
  | .vFeat _ => true

/-- Truthiness of a possibly-`undefined` value (`none` is falsy). -/
def truthyO : Option JsVal → Bool
  | none => false
  | some v => v.truthy

/- ============================================================
   C1 / C4: CanvasVectorTileLayerRenderer.createReplayGroup_
   (src/ol/renderer/canvas/VectorTileLayer.js, lines 157-243)
   ============================================================ -/

/-- The four corner points returned by `replayGroup.getClipCoords(transform)`
(a flat array of eight numbers in the source, read as four (x, y) pairs). -/
structure Quad where
  p0 : ℚ × ℚ
  p1 : ℚ × ℚ
  p2 : ℚ × ℚ
  p3 : ℚ × ℚ
deriving DecidableEq, Repr

/-- The corner points of a clip quad in source order (indices 0-1, 2-3,
4-5, 6-7 of the flat clip-coordinate array). -/
def Quad.path (q : Quad) : List (ℚ × ℚ) := [q.p0, q.p1, q.p2, q.p3]

/-- A source tile backing a composite vector-image tile, as consumed by
`createReplayGroup_`, `postCompose`, `renderTileImage_` and
`forEachFeatureAtCoordinate` of ol/renderer/canvas/VectorTileLayer.js.
`featuresDirty` abstracts whether rendering the tile's features reported a
dirty style; `hasReplays` abstracts `replayGroup.hasReplays(replayTypes)`;
`quad` abstracts `replayGroup.getClipCoords(transform)`; `hits` abstracts
the feature uids reported by the tile's replay group during hit-testing,
in search order. -/
structure SourceTile where
  sid : ℕ
  state : TileState
  z : ℤ
  featuresDirty : Bool
  hasReplays : Bool
  quad : Quad
  hits : List ℕ
deriving DecidableEq, Repr

/-- The per-tile, per-layer replay state of a vector image tile
(`tile.getReplayState(layer)`).  `renderedRenderOrder` holds the identity of
the render-order function (`none` for `null`). -/
structure ReplayState where
  dirty : Bool
  renderedRevision : ℤ
  renderedRenderOrder : Option ℕ
deriving DecidableEq, Repr

/-- The body of `createReplayGroup_`'s loop over the constituent source
tiles: a source tile in ERROR state is skipped (`continue`); otherwise the
replay state's `dirty` flag is reset and re-raised by any dirty feature
render, and a fresh replay group is recorded for that tile. -/
def crgStep (acc : ReplayState × List ℕ) (st : SourceTile) :
    ReplayState × List ℕ :=
  if st.state = TileState.error then acc
  else ({ acc.1 with dirty := st.featuresDirty }, acc.2 ++ [st.sid])

/-- `createReplayGroup_(tile, frameState)`: returns the updated replay state
and the ids of the source tiles for which a new `CanvasReplayGroup` was
built and recorded.  If the replay state is clean (not dirty, rendered
revision equals the layer revision, rendered render order equals the layer
render order) the function returns without doing anything.  Otherwise every
constituent source tile is processed by `crgStep`, and at the end
`renderedRevision` and `renderedRenderOrder` are set to the current layer
values. -/
def createReplayGroup (revision : ℤ) (renderOrder : Option ℕ)
    (rs : ReplayState) (tiles : List SourceTile) : ReplayState × List ℕ :=
  if !rs.dirty ∧ rs.renderedRevision = revision ∧
      rs.renderedRenderOrder = renderOrder then
    (rs, [])
  else
    ({ (tiles.foldl crgStep (rs, [])).1 with
        renderedRevision := revision,
        renderedRenderOrder := renderOrder },
      (tiles.foldl crgStep (rs, [])).2)

/-- The fold inside `createReplayGroup` appends exactly the non-ERROR
source tiles' ids, independent of the accumulated state. -/
theorem createReplayGroup_fold_ids (rs : ReplayState) (acc : List ℕ)
    (tiles : List SourceTile) :
    (tiles.foldl crgStep (rs, acc)).2
      = acc ++ (tiles.filter (fun st => st.state ≠ TileState.error)).map
          (fun st => st.sid) := by
  induction tiles generalizing rs acc with
  | nil => simp
  | cons st tiles ih =>
    by_cases h : st.state = TileState.error
    · simp [crgStep, h, ih]
    · simp [crgStep, h, ih, List.filter_cons]

/-- C1: `createReplayGroup_` is a no-op — no replay group is created and the
replay state is returned unchanged — when the tile's replay state is clean
(not dirty, rendered revision equals the layer revision, rendered render
order equals the layer render order); when the layer revision differs from
the rendered revision, a fresh replay group is built for every non-ERROR
source tile and the replay state's `renderedRevision` and
`renderedRenderOrder` are updated to the current layer values. -/
theorem createReplayGroup_clean_noop_rebuilds_on_revision_change
    (revision : ℤ) (renderOrder : Option ℕ) (rs : ReplayState)
    (tiles : List SourceTile) :
    (rs.dirty = false → rs.renderedRevision = revision →
      rs.renderedRenderOrder = renderOrder →
      createReplayGroup revision renderOrder rs tiles = (rs, [])) ∧
    (rs.renderedRevision ≠ revision →
      (createReplayGroup revision renderOrder rs tiles).1.renderedRevision
          = revision ∧
      (createReplayGroup revision renderOrder rs tiles).1.renderedRenderOrder
          = renderOrder ∧
      (createReplayGroup revision renderOrder rs tiles).2
          = (tiles.filter (fun st => st.state ≠ TileState.error)).map
              (fun st => st.sid)) := by
  constructor
  · intro h1 h2 h3
    simp [createReplayGroup, h1, h2, h3]
  · intro hne
    have hcond : ¬(!rs.dirty ∧ rs.renderedRevision = revision ∧
        rs.renderedRenderOrder = renderOrder) := fun h => hne h.2.1
    simp only [createReplayGroup, if_neg hcond]
    exact ⟨trivial, trivial, createReplayGroup_fold_ids rs [] tiles⟩

/-- A concrete clip quad used by witness instantiations. -/
def sampleQuad : Quad := ⟨(0, 0), (4, 0), (4, 4), (0, 4)⟩

/-- A source tile in ERROR state, for witnesses. -/
def sampleErrTile : SourceTile :=
  ⟨1, TileState.error, 2, false, true, sampleQuad, []⟩

/-- A loaded source tile, for witnesses. -/
def sampleOkTile : SourceTile :=
  ⟨7, TileState.loaded, 2, true, true, sampleQuad, []⟩

/-- Witness for C1: at revision 3 with a clean state `⟨false, 3, none⟩` the
call is a no-op; at revision 5 only the non-ERROR tile (id 7) gets a new
replay group. -/
theorem createReplayGroup_clean_noop_witness :
    createReplayGroup 3 none ⟨false, 3, none⟩ [sampleErrTile, sampleOkTile]
        = (⟨false, 3, none⟩, []) ∧
    (createReplayGroup 5 none ⟨false, 3, none⟩
        [sampleErrTile, sampleOkTile]).2 = [7] := by
  refine ⟨(createReplayGroup_clean_noop_rebuilds_on_revision_change
      3 none ⟨false, 3, none⟩ [sampleErrTile, sampleOkTile]).1 rfl rfl rfl, ?_⟩
  have h := (createReplayGroup_clean_noop_rebuilds_on_revision_change
      5 none ⟨false, 3, none⟩ [sampleErrTile, sampleOkTile]).2 (by decide)
  rw [h.2.2]
  decide

/- ============================================================
   C2 / C4: CanvasVectorTileLayerRenderer.postCompose
   (src/ol/renderer/canvas/VectorTileLayer.js, lines 366-446)
   ============================================================ -/

/-- The layer's render mode (`layer.getRenderMode()`). -/
inductive RenderMode where
  | image
  | hybrid
  | vector
deriving DecidableEq, Repr

/-- A composite vector image tile from `this.renderedTiles`.
`containsCoord` abstracts whether the buffered tile extent contains the
query coordinate in `forEachFeatureAtCoordinate`. -/
structure CompositeTile where
  state : TileState
  sourceTiles : List SourceTile
  containsCoord : Bool
deriving DecidableEq, Repr

/-- One entry of the parallel `clips` / `zs` arrays accumulated during
`postCompose`: the clip coordinates pushed for a replayed source tile,
together with that tile's z level. -/
structure ClipEntry where
  quad : Quad
  z : ℤ
deriving DecidableEq, Repr

/-- Drawing events issued against the canvas context during `postCompose`:
a compound clip path (outer ring corner sequence, then inner ring corner
sequence) or the replay of a source tile's replay group. -/
inductive Ev where
  | clip (outer inner : List (ℚ × ℚ))
  | replay (sid : ℕ) (z : ℤ)
deriving DecidableEq, Repr

/-- Whether `postCompose` replays a source tile: tiles in ERROR state are
skipped, and unless the render mode is `vector`, tiles whose replay group
has no replays of the requested types are skipped. -/
def keptSource (rm : RenderMode) (st : SourceTile) : Bool :=
  !(st.state == TileState.error) && (rm == RenderMode.vector || st.hasReplays)

/-- The body of `postCompose`'s inner loop for one source tile: if the tile
is kept, for every accumulated clip entry with a strictly higher z level a
compound clip is applied (outer ring walks the current tile's clip corners
0,1,2,3; inner ring walks the other tile's corners 6-7, 4-5, 2-3, 0-1,
i.e. in opposite winding), then the tile's replay group is replayed, and
the current clip coordinates and z are pushed onto the accumulated lists. -/
def postComposeSource (rm : RenderMode) (acc : List ClipEntry × List Ev)
    (st : SourceTile) : List ClipEntry × List Ev :=
  if keptSource rm st then
    let clipEvs := (acc.1.filter (fun e => st.z < e.z)).map
      (fun e => Ev.clip [st.quad.p0, st.quad.p1, st.quad.p2, st.quad.p3]
                        [e.quad.p3, e.quad.p2, e.quad.p1, e.quad.p0])
    (acc.1 ++ [⟨st.quad, st.z⟩], acc.2 ++ clipEvs ++ [Ev.replay st.sid st.z])
  else acc

/-- The body of `postCompose`'s outer loop for one composite tile: tiles in
ABORT state are skipped, otherwise every constituent source tile is
processed. -/
def postComposeTile (rm : RenderMode) (acc : List ClipEntry × List Ev)
    (t : CompositeTile) : List ClipEntry × List Ev :=
  if t.state == TileState.abort then acc
  else t.sourceTiles.foldl (postComposeSource rm) acc

/-- A segment of the compositing pass starting from accumulated state
`acc`. -/
def postComposeAux (rm : RenderMode) (acc : List ClipEntry × List Ev)
    (tiles : List CompositeTile) : List ClipEntry × List Ev :=
  tiles.foldl (postComposeTile rm) acc

/-- `postCompose(context, frameState, layerState)`: iterates the rendered
tiles from the end of the list backwards with initially empty `clips` /
`zs` arrays, and returns the final clip-entry list and the trace of drawing
events. -/
def postCompose (rm : RenderMode) (tiles : List CompositeTile) :
    List ClipEntry × List Ev :=
  postComposeAux rm ([], []) tiles.reverse

/-- The clip entry pushed for a replayed source tile. -/
def entryOf (st : SourceTile) : ClipEntry := ⟨st.quad, st.z⟩

/-- The source tiles a segment of the compositing pass replays, in replay
order: per composite tile in the given order, skipping ABORT composite
tiles, the kept source tiles. -/
def unitsOf (rm : RenderMode) (tiles : List CompositeTile) :
    List SourceTile :=
  (tiles.map (fun t => if t.state == TileState.abort then []
      else t.sourceTiles.filter (keptSource rm))).flatten

/-- The source tiles the full pass replays (the rendered-tile list is
walked from its end backwards). -/
def replayedUnits (rm : RenderMode) (tiles : List CompositeTile) :
    List SourceTile :=
  unitsOf rm tiles.reverse

/-- The drawing-event trace the claim predicts for a flat sequence of
replayed source tiles, given the clip entries `prev` accumulated before the
sequence: before each tile's replay, one compound clip per previously
accumulated entry of strictly higher z (outer ring = the tile's own clip
corners, inner ring = the other entry's corners in reverse, i.e. opposite,
winding); afterwards the tile's entry is appended and never removed. -/
def expectedTrace (prev : List ClipEntry) : List SourceTile → List Ev
  | [] => []
  | st :: sts =>
    (prev.filter (fun e => st.z < e.z)).map
      (fun e => Ev.clip st.quad.path e.quad.path.reverse)
    ++ Ev.replay st.sid st.z :: expectedTrace (prev ++ [entryOf st]) sts

theorem expectedTrace_append (us vs : List SourceTile)
    (prev : List ClipEntry) :
    expectedTrace prev (us ++ vs)
      = expectedTrace prev us
        ++ expectedTrace (prev ++ us.map entryOf) vs := by
  induction us generalizing prev with
  | nil => simp [expectedTrace]
  | cons u us ih => simp [expectedTrace, ih, List.append_assoc]

theorem postComposeSource_fold (rm : RenderMode) (sts : List SourceTile)
    (prev : List ClipEntry) (evs : List Ev) :
    sts.foldl (postComposeSource rm) (prev, evs)
      = (prev ++ (sts.filter (keptSource rm)).map entryOf,
         evs ++ expectedTrace prev (sts.filter (keptSource rm))) := by
  induction sts generalizing prev evs with
  | nil => simp [expectedTrace]
  | cons st sts ih =>
    by_cases h : keptSource rm st
    · simp only [List.foldl_cons, postComposeSource, if_pos h]
      rw [ih]
      simp [List.filter_cons, h, expectedTrace, entryOf, Quad.path,
        List.append_assoc]
    · simp only [List.foldl_cons, postComposeSource, if_neg h]
      rw [ih]
      simp [List.filter_cons, h]

theorem postComposeAux_spec (rm : RenderMode) (tiles : List CompositeTile)
    (prev : List ClipEntry) (evs : List Ev) :
    postComposeAux rm (prev, evs) tiles
      = (prev ++ (unitsOf rm tiles).map entryOf,
         evs ++ expectedTrace prev (unitsOf rm tiles)) := by
  induction tiles generalizing prev evs with
  | nil => simp [postComposeAux, unitsOf, expectedTrace]
  | cons t ts ih =>
    by_cases h : t.state = TileState.abort
    · simp only [postComposeAux, List.foldl_cons, postComposeTile, h,
        beq_self_eq_true, if_true] at ih ⊢
      rw [ih]
      simp [unitsOf, h]
    · have hb : (t.state == TileState.abort) = false := by
        simp [h]
      simp only [postComposeAux] at ih
      simp only [postComposeAux, List.foldl_cons, postComposeTile, hb,
        Bool.false_eq_true, if_false]
      rw [postComposeSource_fold, ih]
      simp [unitsOf, hb, h, expectedTrace_append, List.append_assoc]

/-- Replay events of a drawing trace, as (source tile id, z) pairs. -/
def replaysOf (evs : List Ev) : List (ℕ × ℤ) :=
  evs.filterMap (fun e => match e with
    | Ev.replay s z => some (s, z)
    | _ => none)

theorem replaysOf_expectedTrace (us : List SourceTile)
    (prev : List ClipEntry) :
    replaysOf (expectedTrace prev us)
      = us.map (fun st => (st.sid, st.z)) := by
  induction us generalizing prev with
  | nil => simp [expectedTrace, replaysOf]
  | cons u us ih =>
    have hclips : ∀ (l : List ClipEntry) (q : Quad),
        List.filterMap (fun e => match e with
          | Ev.replay s z => some (s, z)
          | _ => none)
          (l.map (fun e => Ev.clip q.path e.quad.path.reverse)) = [] := by
      intro l q
      induction l with
      | nil => rfl
      | cons e l ihl => simp [ihl]
    simp only [expectedTrace, replaysOf, List.filterMap_append,
      List.filterMap_cons] at ih ⊢
    rw [hclips, ih]
    rfl

/-- C2: during one `postCompose` pass, the drawing trace is exactly
`expectedTrace [] (replayedUnits rm tiles)`: before each source tile's
replay at zoom z, a compound clip (outer ring = the current tile's clip
corners, inner ring = the other tile's corners in opposite winding) is
applied for every previously replayed tile of the pass whose zoom is
strictly higher than z; the final clip list holds one entry per replayed
tile in replay order.  Moreover, over any segment of the pass the clip list
only grows by appending — it is never reset between tiles. -/
theorem postCompose_clip_trace_and_monotone_clips (rm : RenderMode)
    (tiles : List CompositeTile) :
    (postCompose rm tiles
      = ((replayedUnits rm tiles).map entryOf,
         expectedTrace [] (replayedUnits rm tiles))) ∧
    (∀ (clips₀ : List ClipEntry) (evs₀ : List Ev)
        (seg : List CompositeTile),
      (postComposeAux rm (clips₀, evs₀) seg).1
        = clips₀ ++ (unitsOf rm seg).map entryOf) := by
  constructor
  · rw [postCompose, postComposeAux_spec]
    simp [replayedUnits]
  · intro clips₀ evs₀ seg
    rw [postComposeAux_spec]

/- ============================================================
   C10 / C4: CanvasVectorTileLayerRenderer.forEachFeatureAtCoordinate
   (src/ol/renderer/canvas/VectorTileLayer.js, lines 263-309)
   and renderTileImage_ (lines 483-515)
   ============================================================ -/

/-- `replayGroup.forEachFeatureAtCoordinate` over the group's hit features
(modelled from the spec, 4.2: the replay-group hit test "invokes
`callback(feature)` for each hit until a truthy result is returned,
short-circuiting the search"; ol/render/canvas/ReplayGroup.js is not part
of the sources).  The callback here is the renderer's deduplicating
wrapper: a feature whose uid is already in `seen` yields `undefined`
without invoking the user callback; otherwise the uid is added to `seen`
and the user callback is invoked.  Returns (result, seen after, uids
passed to the user callback in order). -/
def groupForEach (callback : ℕ → Option JsVal) (seen : List ℕ) :
    List ℕ → Option JsVal × List ℕ × List ℕ
  | [] => (none, seen, [])
  | uid :: rest =>
    if uid ∈ seen then
      groupForEach callback seen rest
    else
      let r := callback uid
      if truthyO r then (r, seen ++ [uid], [uid])
      else
        let out := groupForEach callback (seen ++ [uid]) rest
        (out.1, out.2.1, uid :: out.2.2)

/-- The running state of the renderer's `forEachFeatureAtCoordinate`:
`found` is the `found` variable, `seen` the `features` uid set, `invoked`
the trace of user-callback invocations, `consulted` the source tiles whose
replay group was hit-tested. -/
structure HitState where
  found : Option JsVal
  seen : List ℕ
  invoked : List ℕ
  consulted : List SourceTile

/-- The hit-test loop body for one source tile: ERROR tiles are skipped;
`found = found || replayGroup.forEachFeatureAtCoordinate(...)` consults
the group only while `found` is still falsy. -/
def hitSource (callback : ℕ → Option JsVal) (hs : HitState)
    (st : SourceTile) : HitState :=
  if st.state == TileState.error then hs
  else if truthyO hs.found then hs
  else
    let out := groupForEach callback hs.seen st.hits
    { found := out.1, seen := out.2.1,
      invoked := hs.invoked ++ out.2.2,
      consulted := hs.consulted ++ [st] }

/-- `forEachFeatureAtCoordinate(coordinate, frameState, hitTolerance,
callback, thisArg)` of the vector tile layer renderer: walks the rendered
tiles in order, skips tiles whose buffered extent does not contain the
coordinate, and hit-tests each constituent source tile via `hitSource`,
starting from an empty `features` set. -/
def vtlForEachFeature (callback : ℕ → Option JsVal)
    (tiles : List CompositeTile) : HitState :=
  tiles.foldl (fun hs t =>
    if t.containsCoord then t.sourceTiles.foldl (hitSource callback) hs
    else hs)
    ⟨none, [], [], []⟩

theorem groupForEach_seen (callback : ℕ → Option JsVal) (hits : List ℕ)
    (seen : List ℕ) :
    (groupForEach callback seen hits).2.1
        = seen ++ (groupForEach callback seen hits).2.2
      ∧ (seen.Nodup → (groupForEach callback seen hits).2.1.Nodup) := by
  induction hits generalizing seen with
  | nil => simp [groupForEach]
  | cons uid rest ih =>
    by_cases hmem : uid ∈ seen
    · simpa [groupForEach, hmem] using ih seen
    · by_cases ht : truthyO (callback uid)
      · refine ⟨by simp [groupForEach, hmem, ht], fun hnd => ?_⟩
        simp [groupForEach, hmem, ht, List.nodup_append, hnd, hmem]
      · have h1 := (ih (seen ++ [uid])).1
        have h2 := (ih (seen ++ [uid])).2
        refine ⟨?_, fun hnd => ?_⟩
        · simp only [groupForEach, if_neg hmem, if_neg ht]
          rw [h1]
          simp
        · have : (seen ++ [uid]).Nodup := by
            simp [List.nodup_append, hnd, hmem]
          simpa [groupForEach, hmem, ht] using h2 this

/-- Invariant carried through the hit-test fold: the `features` set equals
the invocation trace, the trace has no duplicates, and every consulted
source tile is in a non-ERROR state. -/
def HitInv (hs : HitState) : Prop :=
  hs.seen = hs.invoked ∧ hs.seen.Nodup
    ∧ ∀ st ∈ hs.consulted, st.state ≠ TileState.error

theorem hitSource_inv (callback : ℕ → Option JsVal) (hs : HitState)
    (st : SourceTile) (h : HitInv hs) :
    HitInv (hitSource callback hs st) := by
  unfold hitSource
  by_cases he : st.state == TileState.error
  · simpa [he] using h
  · by_cases hf : truthyO hs.found
    · simpa [he, hf] using h
    · have hseen := (groupForEach_seen callback st.hits hs.seen).1
      have hnd := (groupForEach_seen callback st.hits hs.seen).2 h.2.1
      refine ⟨?_, ?_, ?_⟩
      · simp only [he, hf]
        simp only [Bool.false_eq_true, if_false]
        rw [hseen, h.1]
      · simpa [he, hf] using hnd
      · intro s hmem
        simp only [he, hf, Bool.false_eq_true, if_false,
          List.mem_append, List.mem_singleton] at hmem
        rcases hmem with hmem | rfl
        · exact h.2.2 s hmem
        · simpa using he

theorem hitSource_fold_inv (callback : ℕ → Option JsVal)
    (sts : List SourceTile) (hs : HitState) (h : HitInv hs) :
    HitInv (sts.foldl (hitSource callback) hs) := by
  induction sts generalizing hs with
  | nil => exact h
  | cons st sts ih => exact ih _ (hitSource_inv callback hs st h)

theorem vtlForEachFeature_inv (callback : ℕ → Option JsVal)
    (tiles : List CompositeTile) :
    HitInv (vtlForEachFeature callback tiles) := by
  rw [vtlForEachFeature]
  generalize hinit : (⟨none, [], [], []⟩ : HitState) = hs0
  have h0 : HitInv hs0 := by
    subst hinit; exact ⟨rfl, List.nodup_nil, by simp⟩
  clear hinit
  induction tiles generalizing hs0 with
  | nil => exact h0
  | cons t ts ih =>
    simp only [List.foldl_cons]
    by_cases hc : t.containsCoord
    · simp only [hc, if_true]
      exact ih _ (hitSource_fold_inv callback t.sourceTiles hs0 h0)
    · simp only [hc, Bool.false_eq_true, if_false]
      exact ih _ h0

/-- C10: within one call of the vector tile layer renderer's
`forEachFeatureAtCoordinate`, the user callback is invoked at most once
per distinct feature uid, however many rendered tiles and source tiles
report the feature as a hit: the trace of callback invocations carries no
duplicate uid. -/
theorem vtlForEachFeature_callback_once_per_feature
    (callback : ℕ → Option JsVal) (tiles : List CompositeTile) :
    (vtlForEachFeature callback tiles).invoked.Nodup := by
  have h := vtlForEachFeature_inv callback tiles
  have := h.2.1
  rwa [h.1] at this

/-- Whether `IMAGE_REPLAYS[layer.getRenderMode()]` is defined: the lookup
table has entries for the `image` and `hybrid` render modes only. -/
def imageReplaysEnabled : RenderMode → Bool
  | RenderMode.vector => false
  | _ => true

/-- `renderTileImage_(tile, frameState, layerState)`: when the render mode
has image replays and the tile's rendered tile revision differs from the
layer revision, the rendered tile revision is updated and each non-ERROR
source tile's replay group is replayed into the tile's canvas; returns the
new rendered tile revision and the ids of the source tiles replayed. -/
def renderTileImage (rm : RenderMode) (revision : ℤ)
    (renderedTileRevision : ℤ) (tiles : List SourceTile) : ℤ × List ℕ :=
  if imageReplaysEnabled rm ∧ renderedTileRevision ≠ revision then
    (revision, tiles.foldl (fun acc st =>
      if st.state = TileState.error then acc else acc ++ [st.sid]) [])
  else (renderedTileRevision, [])

theorem renderTileImage_fold_ids (tiles : List SourceTile) (acc : List ℕ) :
    tiles.foldl (fun acc st =>
        if st.state = TileState.error then acc else acc ++ [st.sid]) acc
      = acc ++ (tiles.filter (fun st => st.state ≠ TileState.error)).map
          (fun st => st.sid) := by
  induction tiles generalizing acc with
  | nil => simp
  | cons st tiles ih =>
    by_cases h : st.state = TileState.error
    · simp [h, ih]
    · simp [h, ih, List.filter_cons]

theorem unitsOf_kept (rm : RenderMode) (tiles : List CompositeTile) :
    ∀ st ∈ unitsOf rm tiles, keptSource rm st = true := by
  intro st hmem
  simp only [unitsOf, List.mem_flatten, List.mem_map] at hmem
  obtain ⟨l, ⟨t, _, rfl⟩, hst⟩ := hmem
  by_cases h : t.state == TileState.abort
  · simp [h] at hst
  · simp only [h, Bool.false_eq_true, if_false, List.mem_filter] at hst
    exact hst.2

/-- C4: ERROR source tiles are skipped everywhere without aborting the
processing of the other tiles: (a) `createReplayGroup_` builds replay
groups only for non-ERROR source tiles; (b) during `postCompose`
compositing, the replayed groups are exactly those of the non-ERROR source
tiles of non-ABORT composite tiles (ABORT composite tiles are skipped at
compositing time), every replayed source tile being non-ERROR; (c)
`renderTileImage_` rasterizes exactly the non-ERROR source tiles when it
runs at all; (d) the hit test never consults an ERROR source tile's replay
group. -/
theorem error_tiles_skipped_everywhere (revision : ℤ)
    (renderOrder : Option ℕ) (rs : ReplayState) (rm : RenderMode)
    (renderedTileRevision : ℤ) (callback : ℕ → Option JsVal)
    (sources : List SourceTile) (tiles : List CompositeTile) :
    ((createReplayGroup revision renderOrder rs sources).2.Sublist
      ((sources.filter (fun st => st.state ≠ TileState.error)).map
        (fun st => st.sid))) ∧
    (replaysOf (postCompose rm tiles).2
        = ((tiles.reverse.map (fun t =>
            if t.state == TileState.abort then []
            else t.sourceTiles.filter (keptSource rm))).flatten).map
            (fun st => (st.sid, st.z))
      ∧ (replayedUnits rm tiles).all
          (fun st => !(st.state == TileState.error)) = true) ∧
    ((renderTileImage rm revision renderedTileRevision sources).2
        = if imageReplaysEnabled rm ∧ renderedTileRevision ≠ revision then
            (sources.filter (fun st => st.state ≠ TileState.error)).map
              (fun st => st.sid)
          else []) ∧
    ((vtlForEachFeature callback tiles).consulted.all
        (fun st => !(st.state == TileState.error)) = true) := by
  refine ⟨?_, ⟨?_, ?_⟩, ?_, ?_⟩
  · rw [createReplayGroup]
    split
    · exact List.nil_sublist _
    · rw [createReplayGroup_fold_ids]
      simp
  · rw [postCompose, postComposeAux_spec]
    simp only [List.nil_append]
    rw [replaysOf_expectedTrace]
    rfl
  · rw [List.all_eq_true]
    intro st hmem
    have hk := unitsOf_kept rm tiles.reverse st (by simpa [replayedUnits] using hmem)
    rw [keptSource] at hk
    simp only [Bool.and_eq_true, Bool.not_eq_true'] at hk ⊢
    simp [hk.1]
  · rw [renderTileImage]
    split
    · rw [renderTileImage_fold_ids]
      simp
    · rfl
  · rw [List.all_eq_true]
    intro st hmem
    have h := (vtlForEachFeature_inv callback tiles).2.2 st hmem
    simpa using h

/- ============================================================
   C3: MapRenderer.forEachFeatureAtCoordinate
   (src/ol/renderer/Map.js, lines 268-319)
   ============================================================ -/

/-- The view projection as consumed by the coordinate translation:
`canWrapX()` and the x range of `getExtent()`. -/
structure Projection where
  canWrapX : Bool
  minX : ℚ
  maxX : ℚ

/-- The per-frame view of one layer as consumed by
`MapRenderer.forEachFeatureAtCoordinate`: its layer state fields used by
the visibility check, whether `layer.getSource()` is non-null, the
source's `getWrapX()`, and the layer renderer's hit test
(`layerRenderer.forEachFeatureAtCoordinate`), abstracted as a function
from the delegated coordinate to the callback result. -/
structure LayerM where
  lid : ℕ
  visible : Bool
  minResolution : ℚ
  maxResolution : ℚ
  hasSource : Bool
  sourceWrapX : Bool
  hitTest : ℚ × ℚ → Option JsVal

/-- Modelled from the spec: `visibleAtResolution(layerState, resolution)`
of ol/layer/Layer.js (not among the sources) — the layer is visible and
the frame resolution lies within the layer's resolution range. -/
def visibleAtResolution (l : LayerM) (res : ℚ) : Bool :=
  l.visible && decide (l.minResolution ≤ res)
    && decide (res < l.maxResolution)

/-- The coordinate translation at the top of `forEachFeatureAtCoordinate`:
when the projection wraps x and the coordinate's x lies outside the
projection extent, the x coordinate is shifted by
`worldWidth * ceil((minX - x) / worldWidth)` world widths. -/
def translateCoord (proj : Projection) (c : ℚ × ℚ) : ℚ × ℚ :=
  if proj.canWrapX then
    let worldWidth := proj.maxX - proj.minX
    if c.1 < proj.minX ∨ c.1 > proj.maxX then
      (c.1 + worldWidth * (Rat.ceil ((proj.minX - c.1) / worldWidth) : ℚ),
        c.2)
    else c
  else c

/-- The layer loop of `forEachFeatureAtCoordinate`, already oriented
top-to-bottom (the source iterates the layer-state array from its last
index backwards): a layer failing the visibility check or the layer filter
is skipped; otherwise, when the layer has a source, its renderer hit test
is delegated the translated coordinate if the source wraps x and the
original coordinate otherwise, and a truthy result returns immediately.
Returns the result together with the ids of the layers whose renderer hit
test ran, in order. -/
def mapForEachGo (lfilter : LayerM → Bool) (res : ℚ) (c tc : ℚ × ℚ) :
    List LayerM → Option JsVal × List ℕ
  | [] => (none, [])
  | l :: ls =>
    if visibleAtResolution l res && lfilter l then
      let result := if l.hasSource then
          l.hitTest (if l.sourceWrapX then tc else c) else none
      let consultedHere := if l.hasSource then [l.lid] else []
      if truthyO result then (result, consultedHere)
      else
        let out := mapForEachGo lfilter res c tc ls
        (out.1, consultedHere ++ out.2)
    else mapForEachGo lfilter res c tc ls

/-- `MapRenderer.forEachFeatureAtCoordinate(coordinate, frameState,
hitTolerance, callback, thisArg, layerFilter, thisArg2)`: translates the
coordinate, then walks `frameState.layerStatesArray` in reverse index
order. -/
def mapForEachFeatureAtCoordinate (proj : Projection) (res : ℚ)
    (lfilter : LayerM → Bool) (layers : List LayerM) (c : ℚ × ℚ) :
    Option JsVal × List ℕ :=
  mapForEachGo lfilter res c (translateCoord proj c) layers.reverse

/-- The result the renderer hit test of a layer reports for the query
(`none` when the layer has no source, since then no hit test runs). -/
def hitOf (c tc : ℚ × ℚ) (l : LayerM) : Option JsVal :=
  if l.hasSource then l.hitTest (if l.sourceWrapX then tc else c) else none

/-- Characterization following the spec's words, corrected for truthiness:
the first truthy hit-test result among the given layers (top first). -/
def firstTruthyAmong (c tc : ℚ × ℚ) (ls : List LayerM) : Option JsVal :=
  match ls.find? (fun l => truthyO (hitOf c tc l)) with
  | some l => hitOf c tc l
  | none => none

/-- Characterization following the spec's words: the first defined
(non-`undefined`) hit-test result among the given layers (top first), as
the claim predicts the function returns. -/
def firstDefinedAmong (c tc : ℚ × ℚ) (ls : List LayerM) : Option JsVal :=
  match ls.find? (fun l => (hitOf c tc l).isSome) with
  | some l => hitOf c tc l
  | none => none

/-- The layers whose renderer hit test runs: all eligible layers down to
and including the first one with a truthy result. -/
def consultedAmong (c tc : ℚ × ℚ) (ls : List LayerM) : List ℕ :=
  ((ls.takeWhile (fun l => !truthyO (hitOf c tc l))).filter
      (fun l => l.hasSource)).map (fun l => l.lid)
    ++ (match ls.find? (fun l => truthyO (hitOf c tc l)) with
        | some l => [l.lid]
        | none => [])

theorem mapForEachGo_spec (lfilter : LayerM → Bool) (res : ℚ)
    (c tc : ℚ × ℚ) (ls : List LayerM) :
    mapForEachGo lfilter res c tc ls
      = (firstTruthyAmong c tc
          (ls.filter (fun l => visibleAtResolution l res && lfilter l)),
         consultedAmong c tc
          (ls.filter (fun l => visibleAtResolution l res && lfilter l))) := by
  induction ls with
  | nil => simp [mapForEachGo, firstTruthyAmong, consultedAmong]
  | cons l ls ih =>
    by_cases hel : (visibleAtResolution l res && lfilter l) = true
    · by_cases ht : truthyO (hitOf c tc l) = true
      · have hsrc : l.hasSource = true := by
          by_contra hno
          simp [hitOf, hno, truthyO] at ht
        have ht' : truthyO (l.hitTest (if l.sourceWrapX then tc else c))
            = true := by
          simpa [hitOf, hsrc] using ht
        simp [mapForEachGo, hel, List.filter_cons, firstTruthyAmong,
          consultedAmong, List.find?, hitOf, hsrc, ht', List.takeWhile]
      · simp only [mapForEachGo, hel, if_true]
        rw [show (if l.hasSource then
            l.hitTest (if l.sourceWrapX then tc else c) else none)
            = hitOf c tc l from rfl]
        simp only [ht, Bool.false_eq_true, if_false]
        rw [ih]
        simp [List.filter_cons, hel, firstTruthyAmong, consultedAmong,
          List.find?, ht, List.takeWhile, List.filter_cons]
        split <;> simp
    · simp [mapForEachGo, hel, List.filter_cons, ih]

/-- A bottom layer whose renderer hit test reports a feature, for the C3
counterexample. -/
def cexBottomLayer : LayerM :=
  ⟨0, true, 0, 100, true, false, fun _ => some (JsVal.vFeat 7)⟩

/-- A top layer whose renderer hit test reports the defined but falsy
value `false`, for the C3 counterexample. -/
def cexTopLayer : LayerM :=
  ⟨1, true, 0, 100, true, false, fun _ => some (JsVal.vBool false)⟩

/-- A non-wrapping projection, for the C3 counterexample. -/
def cexProjection : Projection := ⟨false, -10, 10⟩

/-- Counterexample to C3 as stated: with the top layer's hit test
returning the defined (non-`undefined`) but falsy value `false` and the
bottom layer's returning a feature, the first non-`undefined` result in
top-to-bottom order is `false` — yet the function returns the bottom
layer's feature and consults the bottom layer (id 0) after the top layer
(id 1), so a non-`undefined` result does not short-circuit and is not
returned; only a truthy one is. -/
theorem mapForEachFeature_first_defined_counterexample :
    mapForEachFeatureAtCoordinate cexProjection 1 (fun _ => true)
        [cexBottomLayer, cexTopLayer] (0, 0)
      = (some (JsVal.vFeat 7), [1, 0]) ∧
    firstDefinedAmong (0, 0) (0, 0) [cexTopLayer, cexBottomLayer]
      = some (JsVal.vBool false) := by
  constructor
  · rfl
  · rfl

/-- C3 (amended: a layer's falsy-but-defined hit result neither
short-circuits nor is returned; only a truthy result wins):
`MapRenderer.forEachFeatureAtCoordinate` walks the layer-state array in
reverse index order, considers only layers passing the resolution
visibility check and the layer filter, delegates the hit test on the
translated coordinate when the layer source wraps x and on the original
coordinate otherwise, returns the first truthy callback result consulting
no lower layer afterwards, and returns `undefined` when no layer produces
a truthy result; the translated coordinate shifts x by an integer number
of world widths exactly when the projection wraps x and x lies outside
the projection extent. -/
theorem mapForEachFeatureAtCoordinate_topmost_truthy_wins
    (proj : Projection) (res : ℚ) (lfilter : LayerM → Bool)
    (layers : List LayerM) (c : ℚ × ℚ) :
    (mapForEachFeatureAtCoordinate proj res lfilter layers c
      = (firstTruthyAmong c (translateCoord proj c)
          (layers.reverse.filter
            (fun l => visibleAtResolution l res && lfilter l)),
         consultedAmong c (translateCoord proj c)
          (layers.reverse.filter
            (fun l => visibleAtResolution l res && lfilter l)))) ∧
    (proj.canWrapX = true → (c.1 < proj.minX ∨ c.1 > proj.maxX) →
      ∃ k : ℤ, translateCoord proj c
        = (c.1 + (proj.maxX - proj.minX) * k, c.2)) ∧
    ((proj.canWrapX = false ∨ (proj.minX ≤ c.1 ∧ c.1 ≤ proj.maxX)) →
      translateCoord proj c = c) := by
  refine ⟨mapForEachGo_spec _ _ _ _ _, ?_, ?_⟩
  · intro hw hout
    refine ⟨Rat.ceil ((proj.minX - c.1) / (proj.maxX - proj.minX)), ?_⟩
    simp [translateCoord, hw, hout]
  · intro h
    rcases h with h | h
    · simp [translateCoord, h]
    · have h1 : ¬(c.1 < proj.minX ∨ c.1 > proj.maxX) := by
        push_neg
        exact h
      simp [translateCoord, h1]

/-- Witness for the amended C3: a wrapping projection with extent x range
[-10, 10] translates the out-of-range x = 25 by a whole number of world
widths, and a non-wrapping projection leaves the coordinate alone. -/
theorem mapForEachFeatureAtCoordinate_topmost_truthy_wins_witness :
    (∃ k : ℤ, translateCoord ⟨true, -10, 10⟩ (25, 3)
        = (25 + (10 - (-10)) * (k : ℚ), 3)) ∧
    translateCoord ⟨false, -10, 10⟩ (0, 0) = (0, 0) := by
  constructor
  · exact (mapForEachFeatureAtCoordinate_topmost_truthy_wins
      ⟨true, -10, 10⟩ 1 (fun _ => true) [] (25, 3)).2.1 rfl
      (by norm_num)
  · exact (mapForEachFeatureAtCoordinate_topmost_truthy_wins
      ⟨false, -10, 10⟩ 1 (fun _ => true) [] (0, 0)).2.2 (Or.inl rfl)

/- ============================================================
   C5: MapRenderer.getLayerRenderer
   (src/ol/renderer/Map.js, lines 127-151)
   ============================================================ -/

/-- A layer renderer instance, identified by the value the creating
plugin produced. -/
structure RendererR where
  rid : ℕ
deriving DecidableEq, Repr

/-- A layer as consumed by `getLayerRenderer`: its stable uid
(`getUid(layer)`) and the string its `getType()` returns (used in the
error message). -/
structure LayerP where
  uid : ℕ
  ltype : String
deriving DecidableEq, Repr

/-- A registered layer-renderer plugin: the `handles(type, layer)`
predicate and the `create(mapRenderer, layer)` factory. -/
structure PluginP where
  handles : ℕ → LayerP → Bool
  create : LayerP → RendererR

/-- The renderer cache `this.layerRenderers_`, an object keyed by the
layer uid, modelled as an association list. -/
abbrev RendererCache := List (ℕ × RendererR)

/-- `getLayerRenderer(layer)`: if the layer's uid key is in the cache the
cached renderer is returned with the cache unchanged; otherwise the
ordered registered plugins are scanned and the first whose `handles`
predicate accepts (type, layer) creates the renderer, which is stored
under the uid key; if no plugin matches, an error is thrown
synchronously. -/
def getLayerRenderer (plugins : List PluginP) (rtype : ℕ)
    (cache : RendererCache) (layer : LayerP) :
    Except String (RendererR × RendererCache) :=
  match cache.find? (fun e => e.1 == layer.uid) with
  | some e => Except.ok (e.2, cache)
  | none =>
    match plugins.find? (fun p => p.handles rtype layer) with
    | some p =>
      Except.ok (p.create layer, cache ++ [(layer.uid, p.create layer)])
    | none =>
      Except.error ("Unable to create renderer for layer: " ++ layer.ltype)

theorem getLayerRenderer_hit (plugins : List PluginP) (rtype : ℕ)
    (cache : RendererCache) (layer : LayerP) (e : ℕ × RendererR)
    (h : cache.find? (fun e => e.1 == layer.uid) = some e) :
    getLayerRenderer plugins rtype cache layer = Except.ok (e.2, cache) := by
  simp [getLayerRenderer, h]

/-- C5: `getLayerRenderer` is memoized by the per-layer uid key — a cache
hit returns the cached renderer instance with the cache unchanged, for
every plugin registry (so the registry is not consulted), and in
particular a second call returns the exact renderer instance the first
call produced; on a miss the ordered plugin list is scanned and the first
plugin whose `handles` predicate accepts (type, layer) creates the
renderer; if no registered plugin matches, an error naming the layer type
is thrown rather than the layer being skipped. -/
theorem getLayerRenderer_memoized_first_plugin_or_throws
    (plugins plugins₂ : List PluginP) (rtype : ℕ) (cache : RendererCache)
    (layer : LayerP) :
    (∀ e, cache.find? (fun e => e.1 == layer.uid) = some e →
      getLayerRenderer plugins rtype cache layer = Except.ok (e.2, cache)
        ∧ getLayerRenderer plugins rtype cache layer
            = getLayerRenderer plugins₂ rtype cache layer) ∧
    (∀ r cache₂, getLayerRenderer plugins rtype cache layer
        = Except.ok (r, cache₂) →
      getLayerRenderer plugins₂ rtype cache₂ layer
        = Except.ok (r, cache₂)) ∧
    (cache.find? (fun e => e.1 == layer.uid) = none →
      ∀ p, plugins.find? (fun p => p.handles rtype layer) = some p →
        getLayerRenderer plugins rtype cache layer
          = Except.ok (p.create layer,
              cache ++ [(layer.uid, p.create layer)])) ∧
    (cache.find? (fun e => e.1 == layer.uid) = none →
      (∀ p ∈ plugins, p.handles rtype layer = false) →
      getLayerRenderer plugins rtype cache layer
        = Except.error
            ("Unable to create renderer for layer: " ++ layer.ltype)) := by
  refine ⟨?_, ?_, ?_, ?_⟩
  · intro e he
    exact ⟨getLayerRenderer_hit plugins rtype cache layer e he,
      (getLayerRenderer_hit plugins rtype cache layer e he).trans
        (getLayerRenderer_hit plugins₂ rtype cache layer e he).symm⟩
  · intro r cache₂ hok
    rw [getLayerRenderer] at hok
    rcases hfind : cache.find? (fun e => e.1 == layer.uid) with _ | e
    · rw [hfind] at hok
      rcases hp : plugins.find? (fun p => p.handles rtype layer) with _ | p
      · rw [hp] at hok
        exact absurd hok (by simp)
      · rw [hp] at hok
        injection hok with hok
        have hr : r = p.create layer := (congrArg Prod.fst hok).symm
        have hc : cache₂ = cache ++ [(layer.uid, p.create layer)] :=
          (congrArg Prod.snd hok).symm
        subst hr hc
        have hhit : (cache ++ [(layer.uid, p.create layer)]).find?
            (fun e => e.1 == layer.uid)
            = some (layer.uid, p.create layer) := by
          rw [List.find?_append]
          simp [hfind]
        simp [getLayerRenderer, hhit]
    · rw [hfind] at hok
      injection hok with hok
      have hr : r = e.2 := (congrArg Prod.fst hok).symm
      have hc : cache₂ = cache := (congrArg Prod.snd hok).symm
      subst hr hc
      simp [getLayerRenderer, hfind]
  · intro hmiss p hp
    simp [getLayerRenderer, hmiss, hp]
  · intro hmiss hnone
    have hp : plugins.find? (fun p => p.handles rtype layer) = none := by
      rw [List.find?_eq_none]
      intro p hmem
      simp [hnone p hmem]
    simp [getLayerRenderer, hmiss, hp]

/-- A plugin handling type 0, for the C5 witness. -/
def samplePlugin : PluginP :=
  ⟨fun t _ => t == 0, fun _ => ⟨42⟩⟩

/-- A plugin handling nothing, for the C5 witness. -/
def sampleDeafPlugin : PluginP :=
  ⟨fun _ _ => false, fun _ => ⟨99⟩⟩

/-- Witness for C5: on an empty cache, the first matching plugin (the
second in the registry) creates renderer 42 and the cache gains the uid
key; a repeated call with a different registry returns the same renderer
instance unchanged; with no matching plugin the call throws. -/
theorem getLayerRenderer_memoized_witness :
    getLayerRenderer [sampleDeafPlugin, samplePlugin] 0 [] ⟨5, "VECTOR"⟩
        = Except.ok (⟨42⟩, [(5, ⟨42⟩)]) ∧
    getLayerRenderer [sampleDeafPlugin] 0 [(5, ⟨42⟩)] ⟨5, "VECTOR"⟩
        = Except.ok (⟨42⟩, [(5, ⟨42⟩)]) ∧
    getLayerRenderer [sampleDeafPlugin] 0 [] ⟨5, "VECTOR"⟩
        = Except.error "Unable to create renderer for layer: VECTOR" := by
  have h := getLayerRenderer_memoized_first_plugin_or_throws
    [sampleDeafPlugin, samplePlugin] [sampleDeafPlugin] 0 [] ⟨5, "VECTOR"⟩
  have h1 : getLayerRenderer [sampleDeafPlugin, samplePlugin] 0 []
      ⟨5, "VECTOR"⟩ = Except.ok (⟨42⟩, [(5, ⟨42⟩)]) := by
    have := h.2.2.1 (by rfl) samplePlugin (by rfl)
    simpa [samplePlugin] using this
  refine ⟨h1, h.2.1 ⟨42⟩ [(5, ⟨42⟩)] h1, ?_⟩
  have h2 := getLayerRenderer_memoized_first_plugin_or_throws
    [sampleDeafPlugin] [] 0 [] ⟨5, "VECTOR"⟩
  have := h2.2.2.2 (by rfl) (by
    intro p hmem
    simp only [List.mem_singleton] at hmem
    subst hmem
    rfl)
  simpa using this

/- ============================================================
   C6 / C7: Geometry.getExtent (src/ol/geom/Geometry.js, lines 138-144),
   LinearRing.clone (src/ol/geom/LinearRing.js, lines 53-57),
   MultiPolygon.clone and MultiPolygon.setFlatCoordinates
   (src/unnamed/part_000)
   ============================================================ -/

/-- A heap of JavaScript number arrays, addressed by allocation index.
Geometries hold references into it; `.slice()` allocates a fresh buffer. -/
abbrev Heap := List (List ℚ)

/-- Dereference a buffer (a null reference reads as the empty buffer). -/
def readBuf (h : Heap) : Option ℕ → List ℚ
  | none => []
  | some i => h.getD i []

/-- Allocate a fresh buffer holding `v`; returns the heap and the new
reference. -/
def allocBuf (h : Heap) (v : List ℚ) : Heap × ℕ := (h ++ [v], h.length)

/-- Mutate the buffer at reference `i` in place. -/
def writeBuf (h : Heap) (i : ℕ) (v : List ℚ) : Heap := h.set i v

/-- Allocate one fresh buffer per value, in order (the `.slice()` per ends
array in `MultiPolygon.clone`). -/
def allocBufs (h : Heap) : List (List ℚ) → Heap × List ℕ
  | [] => (h, [])
  | v :: vs =>
    let out := allocBufs (h ++ [v]) vs
    (out.1, h.length :: out.2)

/-- An axis-aligned extent [minX, minY, maxX, maxY].  The empty extent
(`createEmpty`, with inverted infinite bounds in the source) is
represented at use sites by `Option.none`. -/
structure Ext4 where
  minX : ℚ
  minY : ℚ
  maxX : ℚ
  maxY : ℚ
deriving DecidableEq, Repr

/-- The (x, y) points of a flat coordinate buffer under a stride. -/
def flatXYs (coords : List ℚ) (stride : ℕ) : List (ℚ × ℚ) :=
  (List.range (coords.length / stride)).map
    (fun k => (coords.getD (k * stride) 0, coords.getD (k * stride + 1) 0))

/-- Modelled from the spec: `computeExtent` of a simple geometry
(`createOrUpdateFromFlatCoordinates`; ol/geom/SimpleGeometry.js and
ol/extent.js are not among the sources) — the axis-aligned bounding box of
the flat coordinates under the stride ("a cached axis-aligned extent",
spec section 3); the empty extent is `none`. -/
def computeExtent (coords : List ℚ) (stride : ℕ) : Option Ext4 :=
  match flatXYs coords stride with
  | [] => none
  | p :: ps => some (ps.foldl (fun e q =>
      ⟨min e.minX q.1, min e.minY q.2, max e.maxX q.1, max e.maxY q.2⟩)
      ⟨p.1, p.2, p.1, p.2⟩)

/-- The state of `ol.geom.Geometry` relevant to extent caching: the layout
stride, the flat-coordinate buffer reference, the change revision
(`getRevision()`), the cached extent revision `this.extentRevision_`
(initially -1) and the cached extent `this.extent_`. -/
structure GeomCore where
  stride : ℕ
  coordsRef : Option ℕ
  revision : ℕ
  extentRev : ℤ
  extentCache : Option Ext4
deriving DecidableEq, Repr

/-- Modelled from the spec: `this.changed()` of the observable base
(ol/Observable.js is not among the sources) — "Revision: a monotonically
increasing counter bumped on every mutation" (spec glossary). -/
def GeomCore.changed (g : GeomCore) : GeomCore :=
  { g with revision := g.revision + 1 }

/-- A freshly constructed geometry before any coordinate assignment:
revision 0, extent revision -1, empty extent cache. -/
def GeomCore.initial : GeomCore := ⟨2, none, 0, -1, none⟩

/-- `setFlatCoordinates(layout, flatCoordinates)` of LinearRing (and the
shared `setFlatCoordinatesInternal` part of MultiPolygon's): assigns the
layout stride and the buffer reference, then calls `this.changed()`. -/
def GeomCore.setFlatRef (g : GeomCore) (stride : ℕ) (r : Option ℕ) :
    GeomCore :=
  GeomCore.changed { g with stride := stride, coordsRef := r }

/-- `getExtent()` (src/ol/geom/Geometry.js, lines 138-144): when the
cached extent revision differs from the current revision, the extent is
recomputed from the current flat coordinates and the cached revision is
set to the current revision; the (then cached) extent value is
returned. -/
def GeomCore.getExtent (h : Heap) (g : GeomCore) : GeomCore × Option Ext4 :=
  if g.extentRev ≠ (g.revision : ℤ) then
    ({ g with
        extentCache := computeExtent (readBuf h g.coordsRef) g.stride,
        extentRev := (g.revision : ℤ) },
      computeExtent (readBuf h g.coordsRef) g.stride)
  else (g, g.extentCache)

/-- Coherence of the extent cache: the cached revision never exceeds the
current revision, and when they agree the cached extent is the extent of
the current coordinates. -/
def GeomInv (h : Heap) (g : GeomCore) : Prop :=
  g.extentRev ≤ (g.revision : ℤ)
    ∧ (g.extentRev = (g.revision : ℤ) →
        g.extentCache = computeExtent (readBuf h g.coordsRef) g.stride)

instance (h : Heap) (g : GeomCore) : Decidable (GeomInv h g) := by
  unfold GeomInv
  infer_instance

/-- Under cache coherence, `getExtent` always returns the extent of the
current coordinates. -/
theorem getExtent_val (h : Heap) (g : GeomCore) (hinv : GeomInv h g) :
    (GeomCore.getExtent h g).2
      = computeExtent (readBuf h g.coordsRef) g.stride := by
  rw [GeomCore.getExtent]
  by_cases hrev : g.extentRev = (g.revision : ℤ)
  · simp [hrev, hinv.2 hrev]
  · simp [hrev]

/-- `getExtent` only reads the heap through the geometry's own buffer. -/
theorem getExtent_heap_congr (h₁ h₂ : Heap) (g : GeomCore)
    (hread : readBuf h₁ g.coordsRef = readBuf h₂ g.coordsRef) :
    GeomCore.getExtent h₁ g = GeomCore.getExtent h₂ g := by
  rw [GeomCore.getExtent, GeomCore.getExtent, hread]

/-- C6: `getExtent()` returns the cached extent without recomputation
exactly when the stored extent revision equals the geometry's current
revision; otherwise it recomputes the extent from the current coordinates
via `computeExtent` and stores the current revision; consequently, under
cache coherence the returned extent always is the extent of the current
coordinates, and `setFlatCoordinates` bumps the revision so that the
cached extent is invalidated. -/
theorem getExtent_cached_iff_revision_matches (h : Heap) (g : GeomCore)
    (stride : ℕ) (r : Option ℕ) :
    (g.extentRev = (g.revision : ℤ) →
      GeomCore.getExtent h g = (g, g.extentCache)) ∧
    (g.extentRev ≠ (g.revision : ℤ) →
      GeomCore.getExtent h g
        = ({ g with
              extentCache := computeExtent (readBuf h g.coordsRef) g.stride,
              extentRev := (g.revision : ℤ) },
            computeExtent (readBuf h g.coordsRef) g.stride)) ∧
    (GeomInv h g →
      (GeomCore.getExtent h g).2
        = computeExtent (readBuf h g.coordsRef) g.stride) ∧
    ((g.setFlatRef stride r).revision = g.revision + 1) ∧
    (g.extentRev ≤ (g.revision : ℤ) →
      (g.setFlatRef stride r).extentRev
        ≠ ((g.setFlatRef stride r).revision : ℤ)) := by
  refine ⟨?_, ?_, getExtent_val h g, rfl, ?_⟩
  · intro hrev
    simp [GeomCore.getExtent, hrev]
  · intro hrev
    simp [GeomCore.getExtent, hrev]
  · intro hle hcontra
    simp only [GeomCore.setFlatRef, GeomCore.changed] at hcontra
    omega

/-- Witness for C6: a geometry over the buffer [0, 0, 4, 2] with matching
revisions returns its cache untouched; after `setFlatCoordinates` the
revision becomes 2 and the stale cache is recomputed to the bounding box
of the buffer. -/
theorem getExtent_cached_iff_revision_matches_witness :
    GeomCore.getExtent [[0, 0, 4, 2]] ⟨2, some 0, 1, 1, some ⟨0, 0, 4, 2⟩⟩
        = (⟨2, some 0, 1, 1, some ⟨0, 0, 4, 2⟩⟩, some ⟨0, 0, 4, 2⟩) ∧
    (GeomCore.setFlatRef ⟨2, some 0, 1, 1, some ⟨0, 0, 4, 2⟩⟩ 2 (some 0)).revision = 2 ∧
    (GeomCore.setFlatRef ⟨2, some 0, 1, 1, some ⟨0, 0, 4, 2⟩⟩ 2 (some 0)).extentRev
      ≠ ((GeomCore.setFlatRef ⟨2, some 0, 1, 1, some ⟨0, 0, 4, 2⟩⟩ 2 (some 0)).revision : ℤ) ∧
    (GeomCore.getExtent [[0, 0, 4, 2]]
        (GeomCore.setFlatRef ⟨2, some 0, 1, 1, some ⟨0, 0, 4, 2⟩⟩ 2 (some 0))).2
      = some ⟨0, 0, 4, 2⟩ := by
  have h := getExtent_cached_iff_revision_matches [[0, 0, 4, 2]]
    ⟨2, some 0, 1, 1, some ⟨0, 0, 4, 2⟩⟩ 2 (some 0)
  refine ⟨h.1 rfl, h.2.2.2.1, h.2.2.2.2 (by decide), ?_⟩
  have h2 := getExtent_cached_iff_revision_matches [[0, 0, 4, 2]]
    (GeomCore.setFlatRef ⟨2, some 0, 1, 1, some ⟨0, 0, 4, 2⟩⟩ 2 (some 0)) 2 (some 0)
  rw [h2.2.1 (by decide)]
  decide

/-- A buffer reference points into the heap (`none` is the null buffer). -/
def validRef (h : Heap) : Option ℕ → Prop
  | none => True
  | some i => i < h.length

instance (h : Heap) (r : Option ℕ) : Decidable (validRef h r) :=
  match r with
  | none => isTrue trivial
  | some i => Nat.decLt i h.length

theorem readBuf_append (h tail : Heap) (r : Option ℕ)
    (hr : validRef h r) : readBuf (h ++ tail) r = readBuf h r := by
  cases r with
  | none => rfl
  | some i => exact List.getD_append h tail [] i hr

theorem readBuf_alloc (h : Heap) (v : List ℚ) :
    readBuf (allocBuf h v).1 (some (allocBuf h v).2) = v := by
  show (h ++ [v]).getD h.length [] = v
  rw [List.getD_append_right h [v] [] h.length (le_refl _)]
  simp

theorem getD_set_ne (l : Heap) (i j : ℕ) (v : List ℚ) (hne : j ≠ i) :
    (l.set i v).getD j [] = l.getD j [] := by
  by_cases hj : j < l.length
  · rw [List.getD_eq_getElem _ _ (by simpa using hj),
      List.getD_eq_getElem _ _ hj]
    exact List.getElem_set_ne (fun hij => hne hij.symm) (by simpa using hj)
  · rw [List.getD_eq_default _ _ (by simpa using Nat.le_of_not_lt hj),
      List.getD_eq_default _ _ (Nat.le_of_not_lt hj)]

theorem readBuf_write_ne (h : Heap) (i : ℕ) (v : List ℚ) (r : Option ℕ)
    (hr : r ≠ some i) : readBuf (writeBuf h i v) r = readBuf h r := by
  cases r with
  | none => rfl
  | some j => exact getD_set_ne h i j v (fun hji => hr (by rw [hji]))

/-- The values of a multi-polygon's ends arrays under a heap. -/
def endsVals (h : Heap) (refs : List ℕ) : List (List ℚ) :=
  refs.map (fun r => h.getD r [])

theorem endsVals_append (h tail : Heap) (refs : List ℕ)
    (hb : ∀ r ∈ refs, r < h.length) :
    endsVals (h ++ tail) refs = endsVals h refs := by
  unfold endsVals
  exact List.map_congr_left (fun r hr =>
    List.getD_append h tail [] r (hb r hr))

theorem endsVals_write_ne (h : Heap) (i : ℕ) (v : List ℚ) (refs : List ℕ)
    (hb : ∀ r ∈ refs, r ≠ i) :
    endsVals (writeBuf h i v) refs = endsVals h refs := by
  unfold endsVals writeBuf
  exact List.map_congr_left (fun r hr => getD_set_ne h i r v (hb r hr))

theorem allocBufs_spec (vs : List (List ℚ)) (h : Heap) :
    (allocBufs h vs).1 = h ++ vs
      ∧ endsVals (allocBufs h vs).1 (allocBufs h vs).2 = vs
      ∧ ∀ r ∈ (allocBufs h vs).2,
          h.length ≤ r ∧ r < h.length + vs.length := by
  induction vs generalizing h with
  | nil => simp [allocBufs, endsVals]
  | cons v vs ih =>
    have ih1 := (ih (h ++ [v])).1
    have ih2 := (ih (h ++ [v])).2.1
    have ih3 := (ih (h ++ [v])).2.2
    refine ⟨?_, ?_, ?_⟩
    · show (allocBufs (h ++ [v]) vs).1 = h ++ v :: vs
      rw [ih1]
      simp
    · show endsVals (allocBufs (h ++ [v]) vs).1
        (h.length :: (allocBufs (h ++ [v]) vs).2) = v :: vs
      unfold endsVals
      rw [List.map_cons]
      refine congrArg₂ _ ?_ ih2
      rw [ih1]
      rw [List.getD_append (h ++ [v]) vs [] h.length (by simp)]
      rw [List.getD_append_right h [v] [] h.length (le_refl _)]
      simp
    · intro r hr
      rcases List.mem_cons.mp hr with rfl | hmem
      · constructor
        · exact le_refl _
        · simp
      · have := ih3 r hmem
        simp only [List.length_append, List.length_singleton] at this
        constructor
        · omega
        · simp only [List.length_cons]
          omega

/-- `new LinearRing(null)`: the constructor runs `setCoordinates(null)`,
which is `setFlatCoordinates(GeometryLayout.XY, null)`. -/
def linearRingNew : GeomCore := GeomCore.initial.setFlatRef 2 none

/-- `LinearRing.clone()` (src/ol/geom/LinearRing.js, lines 53-57):
`new LinearRing(null)` followed by
`setFlatCoordinates(this.layout, this.flatCoordinates.slice())`; the
`.slice()` allocates a fresh buffer holding a copy of the coordinates. -/
def linearRingClone (h : Heap) (g : GeomCore) : Heap × GeomCore :=
  ((allocBuf h (readBuf h g.coordsRef)).1,
    linearRingNew.setFlatRef g.stride
      (some (allocBuf h (readBuf h g.coordsRef)).2))

/-- The state of `ol.geom.MultiPolygon` relevant to cloning: the geometry
core plus the references of the `endss_` arrays. -/
structure MultiPolygonM where
  core : GeomCore
  endssRefs : List ℕ
deriving DecidableEq, Repr

/-- `new MultiPolygon(null)`: `endss_` starts empty and the constructor
runs `setCoordinates(null)`, i.e.
`setFlatCoordinates(GeometryLayout.XY, null, this.endss_)`. -/
def multiPolygonNew : MultiPolygonM :=
  ⟨GeomCore.initial.setFlatRef 2 none, []⟩

/-- `MultiPolygon.setFlatCoordinates(layout, flatCoordinates, endss)`
(src/unnamed/part_000, lines 385-389): assigns the buffer and the endss
references and calls `this.changed()` once. -/
def MultiPolygonM.setFlatCoordinates (g : MultiPolygonM) (stride : ℕ)
    (r : Option ℕ) (endss : List ℕ) : MultiPolygonM :=
  ⟨g.core.setFlatRef stride r, endss⟩

/-- `MultiPolygon.clone()` (src/unnamed/part_000, lines 116-128): each
ends array is `.slice()`d into `newEndss`, then
`setFlatCoordinates(this.layout, this.flatCoordinates.slice(), newEndss)`
runs on a fresh `new MultiPolygon(null)`. -/
def MultiPolygonM.clone (h : Heap) (g : MultiPolygonM) :
    Heap × MultiPolygonM :=
  ((allocBuf (allocBufs h (endsVals h g.endssRefs)).1
      (readBuf h g.core.coordsRef)).1,
    multiPolygonNew.setFlatCoordinates g.core.stride
      (some (allocBuf (allocBufs h (endsVals h g.endssRefs)).1
        (readBuf h g.core.coordsRef)).2)
      (allocBufs h (endsVals h g.endssRefs)).2)

/-- C7: cloning deep-copies.  For a LinearRing: the clone's buffer is a
fresh reference holding the same coordinate values, the clone's extent is
value-equal to the original's, writing through the clone's buffer
reference leaves the original's coordinates and extent unchanged, and
writing through the original's buffer leaves the clone's coordinates
unchanged.  For a MultiPolygon: the clone's coordinate buffer and every
ends array hold the same values through fresh references, the clone's
extent is value-equal to the original's, and writing through any of the
clone's ends references leaves the original's ends values and coordinates
unchanged. -/
theorem clone_deep_copies_buffer_and_extent
    (h : Heap) (g : GeomCore) (mp : MultiPolygonM)
    (hg : GeomInv h g) (hv : validRef h g.coordsRef)
    (hmpg : GeomInv h mp.core) (hmpv : validRef h mp.core.coordsRef)
    (hends : ∀ r ∈ mp.endssRefs, r < h.length) :
    (readBuf (linearRingClone h g).1 (linearRingClone h g).2.coordsRef
        = readBuf h g.coordsRef) ∧
    ((linearRingClone h g).2.coordsRef ≠ g.coordsRef) ∧
    ((GeomCore.getExtent (linearRingClone h g).1 (linearRingClone h g).2).2
        = (GeomCore.getExtent h g).2) ∧
    (∀ j w, (linearRingClone h g).2.coordsRef = some j →
      readBuf (writeBuf (linearRingClone h g).1 j w) g.coordsRef
          = readBuf h g.coordsRef
        ∧ (GeomCore.getExtent (writeBuf (linearRingClone h g).1 j w) g).2
            = (GeomCore.getExtent h g).2) ∧
    (∀ i w, g.coordsRef = some i →
      readBuf (writeBuf (linearRingClone h g).1 i w)
          (linearRingClone h g).2.coordsRef
        = readBuf (linearRingClone h g).1 (linearRingClone h g).2.coordsRef) ∧
    (readBuf (MultiPolygonM.clone h mp).1
        (MultiPolygonM.clone h mp).2.core.coordsRef
      = readBuf h mp.core.coordsRef) ∧
    (endsVals (MultiPolygonM.clone h mp).1
        (MultiPolygonM.clone h mp).2.endssRefs
      = endsVals h mp.endssRefs) ∧
    ((GeomCore.getExtent (MultiPolygonM.clone h mp).1
        (MultiPolygonM.clone h mp).2.core).2
      = (GeomCore.getExtent h mp.core).2) ∧
    (∀ r ∈ (MultiPolygonM.clone h mp).2.endssRefs, ∀ w,
      endsVals (writeBuf (MultiPolygonM.clone h mp).1 r w) mp.endssRefs
          = endsVals h mp.endssRefs
        ∧ readBuf (writeBuf (MultiPolygonM.clone h mp).1 r w)
            mp.core.coordsRef
          = readBuf h mp.core.coordsRef) := by
  have hlrRead : readBuf (linearRingClone h g).1
      (linearRingClone h g).2.coordsRef = readBuf h g.coordsRef :=
    readBuf_alloc h (readBuf h g.coordsRef)
  have hlrOrig : readBuf (linearRingClone h g).1 g.coordsRef
      = readBuf h g.coordsRef :=
    readBuf_append h [readBuf h g.coordsRef] g.coordsRef hv
  have hfresh : (linearRingClone h g).2.coordsRef ≠ g.coordsRef := by
    show some h.length ≠ g.coordsRef
    cases hc : g.coordsRef with
    | none => simp
    | some i =>
      have : i < h.length := by
        rw [hc] at hv
        exact hv
      simp only [ne_eq, Option.some.injEq]
      omega
  -- MultiPolygon heaps and references
  have hmpEnds := allocBufs_spec (endsVals h mp.endssRefs) h
  have hmpLen : (allocBufs h (endsVals h mp.endssRefs)).1.length
      = h.length + mp.endssRefs.length := by
    rw [hmpEnds.1]
    simp [endsVals]
  have hmpRead : readBuf (MultiPolygonM.clone h mp).1
      (MultiPolygonM.clone h mp).2.core.coordsRef
      = readBuf h mp.core.coordsRef :=
    readBuf_alloc _ (readBuf h mp.core.coordsRef)
  have hmpOrig : readBuf (MultiPolygonM.clone h mp).1 mp.core.coordsRef
      = readBuf h mp.core.coordsRef := by
    show readBuf ((allocBufs h (endsVals h mp.endssRefs)).1
      ++ [readBuf h mp.core.coordsRef]) mp.core.coordsRef = _
    rw [readBuf_append _ _ _ (by
      cases hc : mp.core.coordsRef with
      | none => trivial
      | some i =>
        show i < _
        rw [hmpLen]
        have hi : i < h.length := by rw [hc] at hmpv; exact hmpv
        omega)]
    rw [hmpEnds.1]
    exact readBuf_append h _ mp.core.coordsRef hmpv
  have hmpEndsVals : endsVals (MultiPolygonM.clone h mp).1
      (MultiPolygonM.clone h mp).2.endssRefs = endsVals h mp.endssRefs := by
    show endsVals ((allocBufs h (endsVals h mp.endssRefs)).1
      ++ [readBuf h mp.core.coordsRef])
      (allocBufs h (endsVals h mp.endssRefs)).2 = _
    rw [endsVals_append _ _ _ (by
      intro r hr
      have := hmpEnds.2.2 r hr
      rw [hmpLen]
      simpa [endsVals] using this.2)]
    exact hmpEnds.2.1
  refine ⟨hlrRead, hfresh, ?_, ?_, ?_, hmpRead, hmpEndsVals, ?_, ?_⟩
  · -- extent equality for the LinearRing clone
    have hstale : (linearRingClone h g).2.extentRev
        ≠ ((linearRingClone h g).2.revision : ℤ) := by
      simp [linearRingClone, linearRingNew, GeomCore.setFlatRef,
        GeomCore.changed, GeomCore.initial]
    rw [GeomCore.getExtent, if_pos hstale]
    show computeExtent (readBuf (linearRingClone h g).1
      (linearRingClone h g).2.coordsRef) g.stride = _
    rw [hlrRead, getExtent_val h g hg]
  · intro j w hj
    have hjlen : j = h.length := by
      have : some h.length = some j := hj
      injection this with hh
      omega
    subst hjlen
    have hne : g.coordsRef ≠ some h.length := by
      intro hc
      rw [hc] at hv
      have hv' : h.length < h.length := hv
      omega
    have hread : readBuf (writeBuf (linearRingClone h g).1 h.length w)
        g.coordsRef = readBuf h g.coordsRef := by
      rw [readBuf_write_ne _ _ _ _ hne, hlrOrig]
    refine ⟨hread, ?_⟩
    rw [getExtent_heap_congr _ h g (by rw [hread])]
  · intro i w hi
    have hne : (linearRingClone h g).2.coordsRef ≠ some i := by
      show some h.length ≠ some i
      rw [hi] at hv
      have : i < h.length := hv
      simp only [ne_eq, Option.some.injEq]
      omega
    rw [readBuf_write_ne _ _ _ _ hne]
  · -- extent equality for the MultiPolygon clone
    have hstale : (MultiPolygonM.clone h mp).2.core.extentRev
        ≠ ((MultiPolygonM.clone h mp).2.core.revision : ℤ) := by
      simp [MultiPolygonM.clone, multiPolygonNew,
        MultiPolygonM.setFlatCoordinates, GeomCore.setFlatRef,
        GeomCore.changed, GeomCore.initial]
    rw [GeomCore.getExtent, if_pos hstale]
    show computeExtent (readBuf (MultiPolygonM.clone h mp).1
      (MultiPolygonM.clone h mp).2.core.coordsRef) mp.core.stride = _
    rw [hmpRead, getExtent_val h mp.core hmpg]
  · intro r hr w
    have hrbig : h.length ≤ r := (hmpEnds.2.2 r hr).1
    constructor
    · rw [endsVals_write_ne _ _ _ _ (by
        intro r' hr'
        have := hends r' hr'
        omega)]
      show endsVals ((allocBufs h (endsVals h mp.endssRefs)).1
        ++ [readBuf h mp.core.coordsRef]) mp.endssRefs = _
      rw [endsVals_append _ _ _ (by
        intro r' hr'
        have := hends r' hr'
        rw [hmpLen]
        omega)]
      rw [hmpEnds.1]
      exact endsVals_append h _ mp.endssRefs hends
    · rw [readBuf_write_ne _ _ _ _ (by
        cases hc : mp.core.coordsRef with
        | none => simp
        | some i =>
          rw [hc] at hmpv
          have : i < h.length := hmpv
          simp only [ne_eq, Option.some.injEq]
          omega)]
      exact hmpOrig

/-- A concrete heap for the C7 witness: buffer 0 holds a ring's
coordinates, buffer 1 an ends array. -/
def witHeap : Heap := [[0, 0, 4, 2], [4]]

/-- A concrete linear ring over buffer 0 with a coherent extent cache. -/
def witRing : GeomCore := ⟨2, some 0, 1, 1, some ⟨0, 0, 4, 2⟩⟩

/-- A concrete multi-polygon over buffer 0 with ends array at buffer 1. -/
def witMp : MultiPolygonM := ⟨⟨2, some 0, 1, -1, none⟩, [1]⟩

/-- Witness for C7: on the concrete heap, the ring clone's buffer holds
the original's values, the multi-polygon clone's ends values equal the
original's, and writing through the ring clone's fresh buffer (reference
2) leaves the original's coordinates untouched. -/
theorem clone_deep_copies_buffer_and_extent_witness :
    (readBuf (linearRingClone witHeap witRing).1
        (linearRingClone witHeap witRing).2.coordsRef
      = readBuf witHeap witRing.coordsRef) ∧
    (endsVals (MultiPolygonM.clone witHeap witMp).1
        (MultiPolygonM.clone witHeap witMp).2.endssRefs
      = endsVals witHeap witMp.endssRefs) ∧
    (readBuf (writeBuf (linearRingClone witHeap witRing).1 2 [9, 9])
        witRing.coordsRef
      = readBuf witHeap witRing.coordsRef) := by
  have h := clone_deep_copies_buffer_and_extent witHeap witRing witMp
    (by decide) (by decide) (by decide) (by decide) (by decide)
  exact ⟨h.1, h.2.2.2.2.2.2.1, (h.2.2.2.1 2 [9, 9] rfl).1⟩

/- ============================================================
   C8: TileCache.expireCache (src/ol/TileCache.js, lines 24-35)
   ============================================================ -/

/-- A cached tile, carrying its tile coordinate [z, x, y]. -/
structure TileT where
  z : ℤ
  x : ℤ
  y : ℤ
deriving DecidableEq, Repr

/-- Modelled from the spec: a tile range of the frame's used-tiles set
(ol/TileRange.js is not among the sources); `contains(tileCoord)` holds
when the coordinate's x and y lie within the range bounds ("remaining
entries are within the configured used tiles set for the current frame's
z-levels", spec section 3). -/
structure TileRange where
  minX : ℤ
  maxX : ℤ
  minY : ℤ
  maxY : ℤ
deriving DecidableEq, Repr

def TileRange.contains (r : TileRange) (t : TileT) : Bool :=
  decide (r.minX ≤ t.x) && decide (t.x ≤ r.maxX)
    && decide (r.minY ≤ t.y) && decide (t.y ≤ r.maxY)

/-- `zKey in usedTiles && usedTiles[zKey].contains(tile.tileCoord)`: the
used-tiles object, keyed by the z level's string key, as an association
list. -/
def protectedTile (used : List (ℤ × TileRange)) (t : TileT) : Bool :=
  match used.find? (fun e => e.1 == t.z) with
  | some e => e.2.contains t
  | none => false

/-- `expireCache(usedTiles)`: while the cache can still expire (modelled
from the spec: the LRU primitives of ol/structs/LRUCache.js are not among
the sources; `canExpireCache()` is the count exceeding the high-water
mark, `peekLast()` the least-recently-used entry, `pop()` removes it),
the least-recently-used tile is examined; if its z key is in the used set
and the corresponding tile range contains its coordinate, eviction stops;
otherwise the entry is popped and disposed.  The cache is the
oldest-first list of tiles; returns (remaining cache, disposed tiles in
disposal order). -/
def expireCache (hwm : ℕ) (used : List (ℤ × TileRange)) :
    List TileT → List TileT × List TileT
  | [] => ([], [])
  | t :: rest =>
    if hwm < rest.length + 1 then
      if protectedTile used t then (t :: rest, [])
      else
        ((expireCache hwm used rest).1, t :: (expireCache hwm used rest).2)
    else (t :: rest, [])

/-- Tiles used by the C8 scenario. -/
def tileA : TileT := ⟨0, 0, 0⟩

def tileB : TileT := ⟨0, 1, 0⟩

def tileC : TileT := ⟨0, 2, 0⟩

/-- C8: `expireCache` pops least-recently-used entries in order — the
cache splits as disposed ++ remaining, every disposed tile was
unprotected (its z key missing from the used set or its range not
containing the coordinate), and eviction stops exactly when the count
reaches the high-water mark or the least-recently-used entry is
protected; in particular with high-water mark 2, tiles A, B, C inserted
in that order and an empty used set, A (the oldest) is disposed and B, C
are retained. -/
theorem expireCache_pops_lru_until_used (hwm : ℕ)
    (used : List (ℤ × TileRange)) (cache : List TileT) :
    ((expireCache hwm used cache).2 ++ (expireCache hwm used cache).1
        = cache) ∧
    ((expireCache hwm used cache).2.all
        (fun t => !protectedTile used t) = true) ∧
    ((expireCache hwm used cache).1.length ≤ hwm
      ∨ (expireCache hwm used cache).1.head?.any
          (protectedTile used) = true) ∧
    (expireCache 2 [] [tileA, tileB, tileC] = ([tileB, tileC], [tileA])) := by
  refine ⟨?_, ?_, ?_, by decide⟩
  · induction cache with
    | nil => simp [expireCache]
    | cons t rest ih =>
      by_cases hfull : hwm < rest.length + 1
      · by_cases hp : protectedTile used t
        · simp [expireCache, hfull, hp]
        · simp [expireCache, hfull, hp, ih]
      · simp [expireCache, hfull]
  · induction cache with
    | nil => simp [expireCache]
    | cons t rest ih =>
      by_cases hfull : hwm < rest.length + 1
      · by_cases hp : protectedTile used t
        · simp [expireCache, hfull, hp]
        · simp [expireCache, hfull, hp, ih]
      · simp [expireCache, hfull]
  · induction cache with
    | nil => simp [expireCache]
    | cons t rest ih =>
      by_cases hfull : hwm < rest.length + 1
      · by_cases hp : protectedTile used t
        · right
          simp [expireCache, hfull, hp]
        · simpa [expireCache, hfull, hp] using ih
      · left
        simp only [expireCache, hfull, Bool.false_eq_true, if_false]
        simp only [List.length_cons]
        omega

/- ============================================================
   C9: BaseLayer.getLayerState (src/ol/layer/Base.js, lines 77-87)
   ============================================================ -/

/-- Source readiness states (ol/source/State.js). -/
inductive SourceState where
  | undef
  | loading
  | ready
  | errorS
deriving DecidableEq, Repr

/-- The observable properties of a base layer read by `getLayerState`. -/
structure BaseLayerL where
  opacity : ℚ
  visible : Bool
  zIndex : ℤ
  maxResolution : ℚ
  minResolution : ℚ
  sourceState : SourceState
  extent : Option Ext4
deriving DecidableEq, Repr

/-- The per-frame layer-state snapshot. -/
structure LayerStateS where
  opacity : ℚ
  sourceState : SourceState
  visible : Bool
  extent : Option Ext4
  zIndex : ℤ
  maxResolution : ℚ
  minResolution : ℚ
deriving DecidableEq, Repr

/-- `clamp(value, min, max)` of ol/math.js (not among the sources):
`Math.min(Math.max(value, min), max)`. -/
def clamp (v lo hi : ℚ) : ℚ := min (max v lo) hi

/-- `getLayerState()` (src/ol/layer/Base.js, lines 77-87): snapshots the
observable properties, clamping the opacity to [0, 1] and the minimum
resolution below at 0 (`Math.max(this.getMinResolution(), 0)`). -/
def getLayerState (l : BaseLayerL) : LayerStateS :=
  ⟨clamp l.opacity 0 1, l.sourceState, l.visible, l.extent, l.zIndex,
    l.maxResolution, max l.minResolution 0⟩

/-- Counterexample to C9 as stated: for a layer whose `minResolution`
property is -1, the snapshot's `minResolution` field is 0, not the
layer's current observable value — the snapshot clamps it below at 0. -/
theorem getLayerState_minResolution_counterexample :
    (getLayerState ⟨1 / 2, true, 0, 100, -1, SourceState.ready, none⟩).minResolution
      ≠ (⟨1 / 2, true, 0, 100, -1, SourceState.ready, none⟩ : BaseLayerL).minResolution := by
  decide

/-- C9 (amended: the snapshot's `minResolution` is the layer's current
value clamped below at 0, not the raw value): `getLayerState()` returns a
snapshot whose opacity is the current opacity clamped to [0, 1] (so it
always lies in [0, 1]), whose `visible`, `zIndex`, `maxResolution`,
`sourceState` and `extent` fields equal the layer's current observable
properties, and whose `minResolution` is `max(current, 0)`. -/
theorem getLayerState_snapshot_clamped (l : BaseLayerL) :
    (getLayerState l).opacity = clamp l.opacity 0 1 ∧
    0 ≤ (getLayerState l).opacity ∧ (getLayerState l).opacity ≤ 1 ∧
    (getLayerState l).visible = l.visible ∧
    (getLayerState l).zIndex = l.zIndex ∧
    (getLayerState l).maxResolution = l.maxResolution ∧
    (getLayerState l).sourceState = l.sourceState ∧
    (getLayerState l).extent = l.extent ∧
    (getLayerState l).minResolution = max l.minResolution 0 := by
  refine ⟨rfl, ?_, ?_, rfl, rfl, rfl, rfl, rfl, rfl⟩
  · exact le_min (le_max_right _ _) (by norm_num)
  · exact min_le_right _ _

end OL
